import Mathlib

/-!
# Verification of the `bleah` BLE dashboard core

Shallow embedding of the scan-reconciliation and decoding engine of the
`bleah` repository (`src/main.rs`, `src/lib.rs`), together with theorems
settling the specification claims about it.

Modelling conventions:
* Rust `u8` bytes are `Nat` values; every byte read applies `% 256`,
  which is the identity on genuine byte values.
* Rust `i16`/`u16` big-endian reads are explicit arithmetic on `Nat`/`Int`.
* `f32` arithmetic in the Ruuvi decoder is modelled exactly over `ℚ`
  (`0.005 = 5/1000`, `0.0025 = 25/10000`): the conversions
  `f32::from(i16)`/`f32::from(u16)` are exact, and the claims proved here
  concern field presence and concrete payloads whose formatted values are
  exact one-decimal numbers.
* `BTreeMap` is an association list queried by key equality (keys are
  unique in a `BTreeMap`, so first-match lookup coincides with map lookup).
* `ratatui::TableState` is observed only through `selected()`; it is
  modelled as `Option Nat`.
* `Vec::sort_by` is a stable sort; it is modelled by `List.mergeSort`,
  which is also stable, and the output of a stable sort is uniquely
  determined by the comparator and the input order.
-/

namespace Bleah

/-- `btleplug::api::AddressType` (public or random BLE address). -/
inductive AddressType
  | public
  | random
deriving DecidableEq, Repr

/-- `DeviceInfo` from `src/lib.rs`: one peripheral snapshot. -/
structure DeviceInfo where
  id : String
  name : String
  rssi : Option Int
  connected : Bool
  tx_power_level : Option Int
  address_type : Option AddressType
  manufacturer_data : List (Nat × List Nat)
  service_data : List (String × List Nat)
  services : List String
deriving DecidableEq, Repr

/-- `ScanMessage` from `src/lib.rs`. -/
inductive ScanMessage
  | Devices : List DeviceInfo → ScanMessage
  | Status : String → ScanMessage

/-- `DetailItem` from `src/lib.rs`. -/
structure DetailItem where
  label : String
  value : String
deriving DecidableEq, Repr

/-- The comparator of `AppState::apply`:
`a.name.cmp(&b.name).then(a.id.cmp(&b.id))` is not-greater, i.e. the
lexicographic `(name, id)` order (Rust string `cmp` is byte-lexicographic,
which on valid UTF-8 agrees with Lean's codepoint-lexicographic order). -/
def devLE (a b : DeviceInfo) : Prop :=
  a.name < b.name ∨ (a.name = b.name ∧ a.id ≤ b.id)

instance : DecidableRel devLE := fun a b => by
  unfold devLE; infer_instance

/-- Boolean form of `devLE`, as used by the sort. -/
def devLEb (a b : DeviceInfo) : Bool := decide (devLE a b)

/-- `devices.sort_by(|a, b| a.name.cmp(&b.name).then(a.id.cmp(&b.id)))`:
a stable sort by the `(name, id)` comparator. -/
def sortDevices (l : List DeviceInfo) : List DeviceInfo :=
  l.mergeSort devLEb

/-- `AppState` from `src/main.rs`; `table_state` is
`TableState::selected()`. -/
structure AppState where
  devices : List DeviceInfo
  status : String
  selected_id : Option String
  table_state : Option Nat
deriving DecidableEq, Repr

namespace AppState

/-- `AppState::new()`: empty list, "Starting scan...", no explicit id,
and `table_state.select(Some(0))`. -/
def new : AppState :=
  { devices := []
    status := "Starting scan..."
    selected_id := none
    table_state := some 0 }

/-- `AppState::selected_device()`:
`self.table_state.selected().and_then(|index| self.devices.get(index))`. -/
def selected_device (s : AppState) : Option DeviceInfo :=
  s.table_state.bind fun index => s.devices[index]?

/-- The anchor id of `AppState::apply`:
`self.selected_id.clone().or_else(|| self.selected_device().map(|d| d.id.clone()))`. -/
def anchorId (s : AppState) : Option String :=
  s.selected_id.orElse fun _ => (s.selected_device).map (·.id)

/-- `AppState::apply` from `src/main.rs`. -/
def apply (s : AppState) (msg : ScanMessage) : AppState :=
  match msg with
  | .Devices devices =>
      let sorted := sortDevices devices
      let selected_id := s.anchorId
      let selected_index :=
        (selected_id.bind fun id =>
            sorted.findIdx? fun device => device.id == id).orElse
          fun _ => if sorted.isEmpty then none else some 0
      { devices := sorted
        status := "Scanning..."
        selected_id :=
          (selected_index.bind fun index => sorted[index]?).map (·.id)
        table_state := selected_index }
  | .Status status => { s with status := status }

/-- `AppState::select_next` from `src/main.rs`. -/
def select_next (s : AppState) : AppState :=
  if s.devices.isEmpty then
    { s with table_state := none, selected_id := none }
  else
    let next :=
      match s.table_state with
      | some index => (index + 1) % s.devices.length
      | none => 0
    { s with
        table_state := some next
        selected_id := (s.devices[next]?).map (·.id) }

/-- `AppState::select_previous` from `src/main.rs`. -/
def select_previous (s : AppState) : AppState :=
  if s.devices.isEmpty then
    { s with table_state := none, selected_id := none }
  else
    let next :=
      match s.table_state with
      | some index => if index > 0 then index - 1 else s.devices.length - 1
      | none => s.devices.length - 1
    { s with
        table_state := some next
        selected_id := (s.devices[next]?).map (·.id) }

end AppState

/-- A `PeripheralDecoder` (trait object from `src/lib.rs`): a pair of pure
operations over a device snapshot. -/
structure PeripheralDecoder where
  summary : DeviceInfo → Option String
  details : DeviceInfo → List DetailItem

/-- `device_summary` from `src/main.rs`:
`decoders.iter().find_map(|decoder| decoder.summary(device))`. -/
def device_summary (device : DeviceInfo) (decoders : List PeripheralDecoder) :
    Option String :=
  decoders.findSome? fun decoder => decoder.summary device

/-- `decoded_details` from `src/main.rs`:
`decoders.iter().flat_map(|decoder| decoder.details(device)).collect()`. -/
def decoded_details (device : DeviceInfo) (decoders : List PeripheralDecoder) :
    List DetailItem :=
  decoders.flatMap fun decoder => decoder.details device

/-- `BTreeMap::get`: lookup by key equality in the association list
(keys of a `BTreeMap` are unique, so first match is the match). -/
def lookupMD (m : List (Nat × List Nat)) (key : Nat) : Option (List Nat) :=
  (m.find? fun e => e.1 == key).map (·.2)

/-- `i16::from_be_bytes([hi, lo])` over `Nat` bytes, as an `Int`. -/
def i16_from_be (hi lo : Nat) : Int :=
  let raw := (hi % 256) * 256 + lo % 256
  if raw < 32768 then (raw : Int) else (raw : Int) - 65536

/-- `u16::from_be_bytes([hi, lo])` over `Nat` bytes. -/
def u16_from_be (hi lo : Nat) : Nat :=
  (hi % 256) * 256 + lo % 256

/-- Round a rational to the nearest integer, ties to even — the rounding
used by Rust's fixed-precision float formatting. -/
def roundHalfEven (q : ℚ) : ℤ :=
  let f := ⌊q⌋
  let r := q - f
  if r < 1 / 2 then f
  else if 1 / 2 < r then f + 1
  else if f % 2 = 0 then f else f + 1

/-- Rust `format!("{v:.1}")` on the exact rational value `v`: one decimal
digit, round half to even. -/
def fmt1 (q : ℚ) : String :=
  let n := roundHalfEven (q * 10)
  let s := toString (n.natAbs / 10) ++ "." ++ toString (n.natAbs % 10)
  if n < 0 then "-" ++ s else s

/-- `RuuviDecoder::decode_format5` from `src/lib.rs`: `data.len() < 5 ||
data[0] != 0x05` rejects; bytes 1-2 are signed 16-bit BE temperature
(sentinel `i16::MIN`), bytes 3-4 unsigned 16-bit BE humidity (sentinel
`u16::MAX`); scaling `* 0.005` and `* 0.0025` is exact over `ℚ`. -/
def decode_format5 (data : List Nat) : Option (Option ℚ × Option ℚ) :=
  match data with
  | b0 :: b1 :: b2 :: b3 :: b4 :: _ =>
      if b0 % 256 ≠ 0x05 then none
      else
        let temp_raw := i16_from_be b1 b2
        let humidity_raw := u16_from_be b3 b4
        let temp :=
          if temp_raw = -32768 then none
          else some ((temp_raw : ℚ) * (5 / 1000))
        let humidity :=
          if humidity_raw = 65535 then none
          else some ((humidity_raw : ℚ) * (25 / 10000))
        some (temp, humidity)
  | _ => none

/-- `RuuviDecoder::summary` from `src/lib.rs`. -/
def ruuviSummary (device : DeviceInfo) : Option String :=
  match lookupMD device.manufacturer_data 0x0499 with
  | none => none
  | some data =>
      match decode_format5 data with
      | none => none
      | some (temp, humidity) =>
          let parts :=
            (match temp with
             | some t => [fmt1 t ++ " C"]
             | none => []) ++
            (match humidity with
             | some h => [fmt1 h ++ "%"]
             | none => [])
          if parts.isEmpty then none else some (String.intercalate " " parts)

/-- `RuuviDecoder::details` from `src/lib.rs`. -/
def ruuviDetails (device : DeviceInfo) : List DetailItem :=
  match lookupMD device.manufacturer_data 0x0499 with
  | none => []
  | some data =>
      match decode_format5 data with
      | none => []
      | some (temp, humidity) =>
          (match temp with
           | some t => [⟨"Ruuvi temperature", fmt1 t ++ " C"⟩]
           | none => []) ++
          (match humidity with
           | some h => [⟨"Ruuvi humidity", fmt1 h ++ "%"⟩]
           | none => [])

/-- The `RuuviDecoder` as a `PeripheralDecoder`. -/
def ruuviDecoder : PeripheralDecoder :=
  { summary := ruuviSummary, details := ruuviDetails }

/-- `default_decoders()` from `src/lib.rs`: `vec![Box::new(RuuviDecoder)]`. -/
def default_decoders : List PeripheralDecoder := [ruuviDecoder]

/-- The states reachable from `AppState::new()` by any sequence of
`apply`, `select_next` and `select_previous` calls. -/
inductive Reachable : AppState → Prop
  | init : Reachable AppState.new
  | apply (s : AppState) (msg : ScanMessage) :
      Reachable s → Reachable (s.apply msg)
  | next (s : AppState) : Reachable s → Reachable s.select_next
  | prev (s : AppState) : Reachable s → Reachable s.select_previous

/-- The reconciliation invariant, amended for the initial state: a
non-empty device list has exactly one selected index, in range; the
explicit selected id always names a present device; with an empty list
the explicit id is `none` and the selected index is `none` — except that
the constructor-installed index `0` may persist until the first device
message or selection command. -/
def Invariant (s : AppState) : Prop :=
  (s.devices ≠ [] → ∃ i, s.table_state = some i ∧ i < s.devices.length)
  ∧ (∀ a, s.selected_id = some a → ∃ d, d ∈ s.devices ∧ d.id = a)
  ∧ (s.devices = [] →
      s.selected_id = none ∧ (s.table_state = none ∨ s.table_state = some 0))

/-! ## Helper lemmas -/

theorem devLEb_total (a b : DeviceInfo) : devLEb a b || devLEb b a := by
  simp only [devLEb, devLE, Bool.or_eq_true, decide_eq_true_eq]
  rcases lt_trichotomy a.name b.name with h | h | h
  · exact Or.inl (Or.inl h)
  · rcases le_total a.id b.id with h2 | h2
    · exact Or.inl (Or.inr ⟨h, h2⟩)
    · exact Or.inr (Or.inr ⟨h.symm, h2⟩)
  · exact Or.inr (Or.inl h)

theorem devLEb_trans (a b c : DeviceInfo) (h1 : devLEb a b) (h2 : devLEb b c) :
    devLEb a c := by
  simp only [devLEb, devLE, decide_eq_true_eq] at h1 h2 ⊢
  rcases h1 with h1 | ⟨e1, i1⟩
  · rcases h2 with h2 | ⟨e2, i2⟩
    · exact Or.inl (h1.trans h2)
    · exact Or.inl (e2 ▸ h1)
  · rcases h2 with h2 | ⟨e2, i2⟩
    · exact Or.inl (e1 ▸ h2)
    · exact Or.inr ⟨e1.trans e2, i1.trans i2⟩

theorem sortDevices_perm (l : List DeviceInfo) : List.Perm (sortDevices l) l :=
  List.mergeSort_perm l devLEb

theorem sortDevices_sorted (l : List DeviceInfo) :
    (sortDevices l).Pairwise devLE :=
  (List.sorted_mergeSort (fun a b c => devLEb_trans a b c)
    (fun a b => devLEb_total a b) l).imp fun h => of_decide_eq_true h

theorem sortDevices_filter_key (l : List DeviceInfo) (n i : String) :
    (sortDevices l).filter (fun d => d.name == n && d.id == i)
      = l.filter (fun d => d.name == n && d.id == i) := by
  set p : DeviceInfo → Bool := fun d => d.name == n && d.id == i with hp
  have hmemp : ∀ d : DeviceInfo, p d → d.name = n ∧ d.id = i := by
    intro d hd
    simpa [hp] using hd
  have hpair : (l.filter p).Pairwise (fun a b => devLEb a b) := by
    apply List.pairwise_of_forall_mem_list
    intro a ha b hb
    obtain ⟨na, ia⟩ := hmemp a (List.of_mem_filter ha)
    obtain ⟨nb, ib⟩ := hmemp b (List.of_mem_filter hb)
    simp only [devLEb, devLE, decide_eq_true_eq]
    exact Or.inr ⟨na.trans nb.symm, le_of_eq (ia.trans ib.symm)⟩
  have hc : List.Sublist (l.filter p) (sortDevices l) :=
    List.sublist_mergeSort (fun a b c => devLEb_trans a b c)
      (fun a b => devLEb_total a b) hpair (List.filter_sublist l)
  have hself : (l.filter p).filter p = l.filter p :=
    List.filter_eq_self.mpr fun a ha => List.of_mem_filter ha
  have hsub2 : List.Sublist (l.filter p) ((sortDevices l).filter p) := by
    have := hc.filter p
    rwa [hself] at this
  have hperm : List.Perm ((sortDevices l).filter p) (l.filter p) :=
    (sortDevices_perm l).filter p
  exact (hsub2.eq_of_length hperm.length_eq.symm).symm

theorem roundHalfEven_intCast (n : ℤ) : roundHalfEven (n : ℚ) = n := by
  unfold roundHalfEven
  simp

theorem findIdx_unique_helper {l : List DeviceInfo} {a : String} {j : Nat}
    {d : DeviceInfo} (hj : l[j]? = some d) (hd : d.id = a)
    (huniq : ∀ k dk, l[k]? = some dk → dk.id = a → k = j) :
    l.findIdx? (fun device => device.id == a) = some j := by
  rw [List.findIdx?_eq_some_iff_getElem]
  obtain ⟨hlt, hget⟩ := List.getElem?_eq_some_iff.mp hj
  refine ⟨hlt, ?_, ?_⟩
  · simp [hget, hd]
  · intro k hk
    have hkl : k < l.length := Nat.lt_trans hk hlt
    intro hcontra
    have hid : (l.get ⟨k, hkl⟩).id = a := by simpa using hcontra
    have := huniq k (l.get ⟨k, hkl⟩)
      (List.getElem?_eq_some_iff.mpr ⟨hkl, by simp⟩) hid
    omega

theorem invariant_mk (devices : List DeviceInfo) (st : String) (idx : Option Nat)
    (hin : ∀ j, idx = some j → j < devices.length)
    (hemp : devices = [] → idx = none)
    (hsome : devices ≠ [] → idx ≠ none) :
    Invariant { devices := devices, status := st,
                selected_id := (idx.bind fun index => devices[index]?).map (·.id),
                table_state := idx } := by
  refine ⟨?_, ?_, ?_⟩
  · intro hne
    cases hi : idx with
    | none => exact absurd hi (hsome hne)
    | some j => exact ⟨j, rfl, hin j hi⟩
  · intro a ha
    simp only at ha
    cases hi : idx with
    | none => rw [hi] at ha; simp at ha
    | some j =>
        rw [hi] at ha
        simp only [Option.some_bind] at ha
        cases hd : devices[j]? with
        | none => rw [hd] at ha; simp at ha
        | some d =>
            rw [hd] at ha
            simp only [Option.map_some'] at ha
            exact ⟨d, List.getElem?_mem hd, (Option.some.injEq _ _).mp ha⟩
  · intro hemp2
    have := hemp hemp2
    subst this
    simp

theorem invariant_new : Invariant AppState.new := by
  refine ⟨?_, ?_, ?_⟩ <;> simp [AppState.new, Invariant]

theorem invariant_apply (s : AppState) (msg : ScanMessage) (h : Invariant s) :
    Invariant (s.apply msg) := by
  cases msg with
  | Status st => exact ⟨h.1, h.2.1, h.2.2⟩
  | Devices l =>
      simp only [AppState.apply]
      apply invariant_mk
      · intro j hj
        rcases hb : (s.anchorId.bind fun id =>
            (sortDevices l).findIdx? fun device => device.id == id) with _ | k
        · rw [hb] at hj
          simp only [Option.orElse, Option.none_orElse] at hj
          split at hj
          · exact absurd hj (by simp)
          · rename_i hne
            have h0 : 0 = j := by
              simpa using hj
            subst h0
            simp only [List.isEmpty_iff] at hne
            exact List.length_pos.mpr hne
        · rw [hb] at hj
          have hk : k = j := by simpa [Option.orElse] using hj
          subst hk
          rcases Option.bind_eq_some.mp hb with ⟨a, ha, hfind⟩
          exact (List.findIdx?_eq_some_iff_getElem.mp hfind).1
      · intro hnil
        have hbind : (s.anchorId.bind fun id =>
            (sortDevices l).findIdx? fun device => device.id == id) = none := by
          cases s.anchorId with
          | none => rfl
          | some a => simp [hnil]
        rw [hbind]
        simp [Option.orElse, hnil]
      · intro hne
        rcases hb : (s.anchorId.bind fun id =>
            (sortDevices l).findIdx? fun device => device.id == id) with _ | k
        · rw [hb]
          simp [Option.orElse, List.isEmpty_iff, hne]
        · rw [hb]
          simp [Option.orElse]

theorem invariant_next (s : AppState) (_h : Invariant s) :
    Invariant s.select_next := by
  unfold AppState.select_next
  by_cases he : s.devices.isEmpty
  · simp only [he, if_true]
    have hnil : s.devices = [] := List.isEmpty_iff.mp he
    exact ⟨fun hne => absurd hnil hne, fun a ha => by simp at ha,
      fun _ => ⟨rfl, Or.inl rfl⟩⟩
  · simp only [he, if_false]
    have hne : s.devices ≠ [] := fun hnil => he (List.isEmpty_iff.mpr hnil)
    have hpos : 0 < s.devices.length := List.length_pos.mpr hne
    set next :=
      match s.table_state with
      | some index => (index + 1) % s.devices.length
      | none => 0 with hnext
    have hlt : next < s.devices.length := by
      rw [hnext]
      cases s.table_state with
      | some index => exact Nat.mod_lt _ hpos
      | none => exact hpos
    refine ⟨fun _ => ⟨next, rfl, hlt⟩, ?_, fun hnil => absurd hnil hne⟩
    intro a ha
    cases hd : s.devices[next]? with
    | none => rw [hd] at ha; simp at ha
    | some d =>
        rw [hd] at ha
        simp only [Option.map_some'] at ha
        exact ⟨d, List.getElem?_mem hd, (Option.some.injEq _ _).mp ha⟩

theorem invariant_prev (s : AppState) (h : Invariant s) :
    Invariant s.select_previous := by
  unfold AppState.select_previous
  by_cases he : s.devices.isEmpty
  · simp only [he, if_true]
    have hnil : s.devices = [] := List.isEmpty_iff.mp he
    exact ⟨fun hne => absurd hnil hne, fun a ha => by simp at ha,
      fun _ => ⟨rfl, Or.inl rfl⟩⟩
  · simp only [he, if_false]
    have hne : s.devices ≠ [] := fun hnil => he (List.isEmpty_iff.mpr hnil)
    have hpos : 0 < s.devices.length := List.length_pos.mpr hne
    set next :=
      match s.table_state with
      | some index => if index > 0 then index - 1 else s.devices.length - 1
      | none => s.devices.length - 1 with hnext
    have hlt : next < s.devices.length := by
      rw [hnext]
      cases ht : s.table_state with
      | some index =>
          by_cases hi : index > 0
          · simp only [hi, if_true]
            obtain ⟨i, hti, hil⟩ := h.1 hne
            rw [ht] at hti
            have hix : index = i := by simpa using hti
            omega
          · simp only [hi, if_false]
            omega
      | none => exact Nat.sub_lt hpos Nat.one_pos
    refine ⟨fun _ => ⟨next, rfl, hlt⟩, ?_, fun hnil => absurd hnil hne⟩
    intro a ha
    cases hd : s.devices[next]? with
    | none => rw [hd] at ha; simp at ha
    | some d =>
        rw [hd] at ha
        simp only [Option.map_some'] at ha
        exact ⟨d, List.getElem?_mem hd, (Option.some.injEq _ _).mp ha⟩

theorem decode_format5_short :
    ∀ (data : List Nat), data.length < 5 → decode_format5 data = none
  | [], _ => rfl
  | [_], _ => rfl
  | [_, _], _ => rfl
  | [_, _, _], _ => rfl
  | [_, _, _, _], _ => rfl
  | _ :: _ :: _ :: _ :: _ :: rest, h => by
      exfalso
      simp only [List.length_cons] at h
      omega

theorem decode_format5_tag :
    ∀ (data : List Nat) (b0 : Nat), data.head? = some b0 → b0 % 256 ≠ 5 →
      decode_format5 data = none
  | [], _, h, _ => by simp at h
  | [_], _, _, _ => rfl
  | [_, _], _, _, _ => rfl
  | [_, _, _], _, _, _ => rfl
  | [_, _, _, _], _, _, _ => rfl
  | b :: _ :: _ :: _ :: _ :: _, b0, h, hb => by
      have hbb : b = b0 := by simpa using h
      subst hbb
      simp [decode_format5, hb]

theorem decode_sample :
    decode_format5 [0x05, 0x01, 0x90, 0x27, 0x10] =
      some (some (((400 : ℤ) : ℚ) * (5 / 1000)),
            some (((10000 : ℕ) : ℚ) * (25 / 10000))) := by
  norm_num [decode_format5, i16_from_be, u16_from_be]

theorem fmt1_sample_temp : fmt1 (((400 : ℤ) : ℚ) * (5 / 1000)) = "2.0" := by
  unfold fmt1
  have h : ((400 : ℤ) : ℚ) * (5 / 1000) * 10 = ((20 : ℤ) : ℚ) := by norm_num
  rw [h, roundHalfEven_intCast]
  decide

theorem fmt1_sample_humidity :
    fmt1 (((10000 : ℕ) : ℚ) * (25 / 10000)) = "25.0" := by
  unfold fmt1
  have h : ((10000 : ℕ) : ℚ) * (25 / 10000) * 10 = ((250 : ℤ) : ℚ) := by
    norm_num
  rw [h, roundHalfEven_intCast]
  decide

/-! ## Claim theorems -/


/-- C1: after `apply(Devices(list))` the device list is a permutation of
the input, non-decreasing under the total `(name, id)` order (primary key
name, secondary key id, both ascending), and the sort is stable: the
relative order of devices with equal `(name, id)` key is preserved, so the
output is the unique stable sort of the input (determinism is intrinsic to
the functional model). -/
theorem apply_devices_sorts (s : AppState) (l : List DeviceInfo) :
    List.Perm (s.apply (ScanMessage.Devices l)).devices l
    ∧ (s.apply (ScanMessage.Devices l)).devices.Pairwise devLE
    ∧ ∀ n i : String,
        (s.apply (ScanMessage.Devices l)).devices.filter
            (fun d => d.name == n && d.id == i)
          = l.filter (fun d => d.name == n && d.id == i) := by
  have hdev : (s.apply (ScanMessage.Devices l)).devices = sortDevices l := rfl
  rw [hdev]
  exact ⟨sortDevices_perm l, sortDevices_sorted l,
    fun n i => sortDevices_filter_key l n i⟩

/-- C5: `apply(Status(s))` sets the status string to `s` and leaves the
device list, the selected index and the explicit selected id unchanged. -/
theorem apply_status_frame (s : AppState) (st : String) :
    (s.apply (ScanMessage.Status st)).status = st ∧
    (s.apply (ScanMessage.Status st)).devices = s.devices ∧
    (s.apply (ScanMessage.Status st)).selected_id = s.selected_id ∧
    (s.apply (ScanMessage.Status st)).table_state = s.table_state :=
  ⟨rfl, rfl, rfl, rfl⟩

/-- C4: on a non-empty list `select_next` from the last index wraps to
index 0 and `select_previous` from index 0 wraps to the last index; on an
empty list both clear the selection and the explicit selected id; neither
command reorders the device list. -/
theorem select_wraparound (s : AppState) :
    (s.devices ≠ [] → s.table_state = some (s.devices.length - 1) →
        s.select_next.table_state = some 0)
    ∧ (s.devices ≠ [] → s.table_state = some 0 →
        s.select_previous.table_state = some (s.devices.length - 1))
    ∧ (s.devices = [] →
        s.select_next.table_state = none ∧ s.select_next.selected_id = none ∧
        s.select_previous.table_state = none ∧
          s.select_previous.selected_id = none)
    ∧ s.select_next.devices = s.devices
    ∧ s.select_previous.devices = s.devices := by
  refine ⟨?_, ?_, ?_, ?_, ?_⟩
  · intro hne ht
    have he : s.devices.isEmpty = false := by
      exact List.isEmpty_eq_false.mpr hne
    have hpos : 0 < s.devices.length := List.length_pos.mpr hne
    simp only [AppState.select_next, he, Bool.false_eq_true, if_false, ht]
    have h0 : (s.devices.length - 1 + 1) % s.devices.length = 0 := by
      have h1 : s.devices.length - 1 + 1 = s.devices.length := by omega
      rw [h1, Nat.mod_self]
    simp [h0]
  · intro hne ht
    have he : s.devices.isEmpty = false := by
      exact List.isEmpty_eq_false.mpr hne
    simp only [AppState.select_previous, he, Bool.false_eq_true, if_false, ht]
    simp
  · intro hnil
    have he : s.devices.isEmpty = true := List.isEmpty_iff.mpr hnil
    refine ⟨?_, ?_, ?_, ?_⟩ <;>
      simp [AppState.select_next, AppState.select_previous, he]
  · by_cases he : s.devices.isEmpty <;>
      simp [AppState.select_next, he]
  · by_cases he : s.devices.isEmpty <;>
      simp [AppState.select_previous, he]

/-- C10: on a non-empty list with no currently selected index,
`select_next` selects index 0 and `select_previous` selects the last
index, and both set the explicit selected id to the id of the device at
the newly selected index. -/
theorem select_from_none_selection (s : AppState) (hne : s.devices ≠ [])
    (ht : s.table_state = none) :
    (s.select_next.table_state = some 0 ∧
      ∃ d, s.devices[0]? = some d ∧ s.select_next.selected_id = some d.id)
    ∧ (s.select_previous.table_state = some (s.devices.length - 1) ∧
      ∃ d, s.devices[s.devices.length - 1]? = some d ∧
        s.select_previous.selected_id = some d.id) := by
  have he : s.devices.isEmpty = false := by
    exact List.isEmpty_eq_false.mpr hne
  have hpos : 0 < s.devices.length := List.length_pos.mpr hne
  obtain ⟨d0, hd0⟩ : ∃ d, s.devices[0]? = some d :=
    ⟨_, List.getElem?_eq_getElem hpos⟩
  obtain ⟨dl, hdl⟩ : ∃ d, s.devices[s.devices.length - 1]? = some d :=
    ⟨_, List.getElem?_eq_getElem (Nat.sub_lt hpos Nat.one_pos)⟩
  constructor
  · simp only [AppState.select_next, he, Bool.false_eq_true, if_false, ht]
    exact ⟨trivial, d0, hd0, by simp [hd0]⟩
  · simp only [AppState.select_previous, he, Bool.false_eq_true, if_false, ht]
    exact ⟨trivial, dl, hdl, by simp [hdl]⟩


/-- C6: the composed summary is the first non-none decoder result in
registration order (none iff every decoder returns none), and the composed
details list is the in-order concatenation of every decoder's details, so
its length is the sum of the individual lengths. -/
theorem decoder_composition (device : DeviceInfo)
    (decoders : List PeripheralDecoder) :
    (device_summary device decoders = none ↔
      ∀ dec ∈ decoders, dec.summary device = none)
    ∧ (∀ v, device_summary device decoders = some v ↔
        ∃ pre dec post, decoders = pre ++ dec :: post ∧
          dec.summary device = some v ∧
          ∀ d2 ∈ pre, d2.summary device = none)
    ∧ decoded_details device decoders
        = ((decoders.map fun dec => dec.details device).flatten)
    ∧ (decoded_details device decoders).length
        = (decoders.map fun dec => (dec.details device).length).sum := by
  refine ⟨List.findSome?_eq_none_iff, ?_, List.flatMap_def _ _, ?_⟩
  · intro v
    induction decoders with
    | nil =>
        simp [device_summary]
    | cons dec ds ih =>
        unfold device_summary at ih ⊢
        rw [List.findSome?_cons]
        cases hs : dec.summary device with
        | some w =>
            simp only [Option.some.injEq]
            constructor
            · rintro rfl
              exact ⟨[], dec, ds, rfl, hs, by simp⟩
            · rintro ⟨pre, dec2, post, hdec, hsum, hpre⟩
              cases pre with
              | nil =>
                  simp only [List.nil_append, List.cons.injEq] at hdec
                  obtain ⟨h1, -⟩ := hdec
                  subst h1
                  rw [hs] at hsum
                  exact (Option.some.injEq _ _).mp hsum
              | cons p ps =>
                  simp only [List.cons_append, List.cons.injEq] at hdec
                  obtain ⟨h1, -⟩ := hdec
                  have hp := hpre p (by simp)
                  rw [← h1, hs] at hp
                  simp at hp
        | none =>
            rw [ih]
            constructor
            · rintro ⟨pre, dec2, post, hdec, hsum, hpre⟩
              refine ⟨dec :: pre, dec2, post, by simp [hdec], hsum, ?_⟩
              intro d2 hd2
              rcases List.mem_cons.mp hd2 with h | h
              · subst h; exact hs
              · exact hpre d2 h
            · rintro ⟨pre, dec2, post, hdec, hsum, hpre⟩
              cases pre with
              | nil =>
                  simp only [List.nil_append, List.cons.injEq] at hdec
                  obtain ⟨h1, -⟩ := hdec
                  subst h1
                  rw [hs] at hsum
                  simp at hsum
              | cons p ps =>
                  simp only [List.cons_append, List.cons.injEq] at hdec
                  obtain ⟨h1, h2⟩ := hdec
                  exact ⟨ps, dec2, post, h2, hsum, fun d2 hd2 =>
                    hpre d2 (List.mem_cons_of_mem p hd2)⟩
  · rw [decoded_details, List.flatMap_def, List.length_flatten, List.map_map]
    rfl

/-- C7: for every payload of length at least 5 whose first byte is 0x05,
the Ruuvi format-5 decoder reads bytes 1-2 as signed 16-bit big-endian
temperature (value raw * 0.005, omitted exactly when raw is the minimum
signed 16-bit value) and bytes 3-4 as unsigned 16-bit big-endian humidity
(value raw * 0.0025, omitted exactly when raw is the maximum unsigned
16-bit value); on the all-sentinel payload [05, 80 00, FF FF] `summary`
is none and `details` is empty. -/
theorem ruuvi_format5_fields :
    (∀ (b1 b2 b3 b4 : Nat) (rest : List Nat),
        b1 < 256 → b2 < 256 → b3 < 256 → b4 < 256 →
        ∃ t h,
          decode_format5 (0x05 :: b1 :: b2 :: b3 :: b4 :: rest) = some (t, h)
          ∧ (t = none ↔ i16_from_be b1 b2 = -32768)
          ∧ (i16_from_be b1 b2 ≠ -32768 →
              t = some ((i16_from_be b1 b2 : ℚ) * (5 / 1000)))
          ∧ (h = none ↔ u16_from_be b3 b4 = 65535)
          ∧ (u16_from_be b3 b4 ≠ 65535 →
              h = some ((u16_from_be b3 b4 : ℚ) * (25 / 10000))))
    ∧ (∀ d : DeviceInfo,
        lookupMD d.manufacturer_data 0x0499
            = some [0x05, 0x80, 0x00, 0xFF, 0xFF] →
        ruuviSummary d = none ∧ ruuviDetails d = []) := by
  constructor
  · intro b1 b2 b3 b4 rest _ _ _ _
    refine ⟨if i16_from_be b1 b2 = -32768 then none
              else some ((i16_from_be b1 b2 : ℚ) * (5 / 1000)),
            if u16_from_be b3 b4 = 65535 then none
              else some ((u16_from_be b3 b4 : ℚ) * (25 / 10000)),
            ?_, ?_, ?_, ?_, ?_⟩
    · norm_num [decode_format5]
    · by_cases ht : i16_from_be b1 b2 = -32768 <;> simp [ht]
    · intro ht; simp [ht]
    · by_cases hh : u16_from_be b3 b4 = 65535 <;> simp [hh]
    · intro hh; simp [hh]
  · intro d hd
    have hdec : decode_format5 [0x05, 0x80, 0x00, 0xFF, 0xFF]
        = some (none, none) := by
      norm_num [decode_format5, i16_from_be, u16_from_be]
    unfold ruuviSummary ruuviDetails
    rw [hd]
    simp only [hdec]
    exact ⟨rfl, rfl⟩

/-- Witness for C7 at the sentinel payload. -/
theorem ruuvi_format5_fields_witness :
    ruuviSummary ⟨"r1", "Ruuvi", none, false, none, none,
        [(0x0499, [0x05, 0x80, 0x00, 0xFF, 0xFF])], [], []⟩ = none
    ∧ ruuviDetails ⟨"r1", "Ruuvi", none, false, none, none,
        [(0x0499, [0x05, 0x80, 0x00, 0xFF, 0xFF])], [], []⟩ = [] :=
  ruuvi_format5_fields.2 _ rfl

/-- C8: a device whose manufacturer-data entry 0x0499 carries
[05, 01 90, 27 10] decodes to summary "2.0 C 25.0%" and details
[("Ruuvi temperature", "2.0 C"), ("Ruuvi humidity", "25.0%")]. -/
theorem ruuvi_concrete_decode (d : DeviceInfo)
    (h : lookupMD d.manufacturer_data 0x0499
        = some [0x05, 0x01, 0x90, 0x27, 0x10]) :
    ruuviSummary d = some "2.0 C 25.0%" ∧
    ruuviDetails d = [⟨"Ruuvi temperature", "2.0 C"⟩,
                      ⟨"Ruuvi humidity", "25.0%"⟩] := by
  unfold ruuviSummary ruuviDetails
  rw [h]
  simp only [decode_sample, fmt1_sample_temp, fmt1_sample_humidity]
  exact ⟨rfl, rfl⟩

/-- Witness for C8 at a concrete device. -/
theorem ruuvi_concrete_decode_witness :
    ruuviSummary ⟨"r2", "Ruuvi", none, false, none, none,
        [(0x0499, [0x05, 0x01, 0x90, 0x27, 0x10])], [], []⟩
      = some "2.0 C 25.0%"
    ∧ ruuviDetails ⟨"r2", "Ruuvi", none, false, none, none,
        [(0x0499, [0x05, 0x01, 0x90, 0x27, 0x10])], [], []⟩
      = [⟨"Ruuvi temperature", "2.0 C"⟩, ⟨"Ruuvi humidity", "25.0%"⟩] :=
  ruuvi_concrete_decode _ rfl

/-- C9: if the manufacturer-data map has no 0x0499 entry, or the entry is
shorter than 5 bytes, or its first byte is not 0x05, the Ruuvi decoder
returns none and the empty details list (totality is intrinsic: both
operations are total Lean functions). -/
theorem ruuvi_not_applicable (d : DeviceInfo) :
    (lookupMD d.manufacturer_data 0x0499 = none →
        ruuviSummary d = none ∧ ruuviDetails d = [])
    ∧ (∀ data, lookupMD d.manufacturer_data 0x0499 = some data →
        data.length < 5 → ruuviSummary d = none ∧ ruuviDetails d = [])
    ∧ (∀ data b0, lookupMD d.manufacturer_data 0x0499 = some data →
        data.head? = some b0 → b0 % 256 ≠ 0x05 →
        ruuviSummary d = none ∧ ruuviDetails d = []) := by
  refine ⟨?_, ?_, ?_⟩
  · intro h
    unfold ruuviSummary ruuviDetails
    rw [h]
    exact ⟨rfl, rfl⟩
  · intro data h hlen
    unfold ruuviSummary ruuviDetails
    rw [h]
    simp only [decode_format5_short data hlen]
    exact ⟨trivial, trivial⟩
  · intro data b0 h hh hb
    unfold ruuviSummary ruuviDetails
    rw [h]
    simp only [decode_format5_tag data b0 hh hb]
    exact ⟨trivial, trivial⟩

/-- Witness for C9 at three concrete devices. -/
theorem ruuvi_not_applicable_witness :
    (ruuviSummary ⟨"n1", "X", none, false, none, none, [], [], []⟩ = none)
    ∧ (ruuviDetails ⟨"n2", "X", none, false, none, none,
        [(0x0499, [0x05, 0x01])], [], []⟩ = [])
    ∧ (ruuviSummary ⟨"n3", "X", none, false, none, none,
        [(0x0499, [0x06, 0x00, 0x00, 0x00, 0x00])], [], []⟩ = none) :=
  ⟨((ruuvi_not_applicable
      ⟨"n1", "X", none, false, none, none, [], [], []⟩).1 rfl).1,
   ((ruuvi_not_applicable ⟨"n2", "X", none, false, none, none,
      [(0x0499, [0x05, 0x01])], [], []⟩).2.1 [0x05, 0x01] rfl (by decide)).2,
   ((ruuvi_not_applicable ⟨"n3", "X", none, false, none, none,
      [(0x0499, [0x06, 0x00, 0x00, 0x00, 0x00])], [], []⟩).2.2
      [0x06, 0x00, 0x00, 0x00, 0x00] 0x06 rfl rfl (by decide)).1⟩

/-- Witness for C6: the composed details of the default registry on a
concrete device equal the flattened per-decoder outputs. -/
theorem decoder_composition_witness :
    decoded_details ⟨"w6", "X", none, false, none, none, [], [], []⟩
        default_decoders
      = ((default_decoders.map fun dec =>
          dec.details ⟨"w6", "X", none, false, none, none, [], [], []⟩).flatten) :=
  (decoder_composition _ default_decoders).2.2.1

/-- C2: `apply(Devices(list))` recomputes the selection from the anchor id:
if a device with the anchor id occurs (uniquely) at index `j` of the sorted
list, index `j` is selected and the explicit id is the anchor id; if no
device has the anchor id and the list is non-empty, index 0 is selected;
if the list is empty, the selection and the explicit id become none. -/
theorem apply_devices_selection (s : AppState) (l : List DeviceInfo) :
    (∀ a j d, s.anchorId = some a → (sortDevices l)[j]? = some d → d.id = a →
        (∀ k dk, (sortDevices l)[k]? = some dk → dk.id = a → k = j) →
        (s.apply (ScanMessage.Devices l)).table_state = some j ∧
          (s.apply (ScanMessage.Devices l)).selected_id = some a)
    ∧ ((∀ a, s.anchorId = some a → ∀ d, d ∈ sortDevices l → d.id ≠ a) →
        l ≠ [] → (s.apply (ScanMessage.Devices l)).table_state = some 0)
    ∧ (l = [] → (s.apply (ScanMessage.Devices l)).table_state = none ∧
        (s.apply (ScanMessage.Devices l)).selected_id = none) := by
  refine ⟨?_, ?_, ?_⟩
  · intro a j d ha hj hd huniq
    have hfind : (sortDevices l).findIdx? (fun device => device.id == a)
        = some j := findIdx_unique_helper hj hd huniq
    simp only [AppState.apply, ha, Option.some_bind, hfind]
    constructor
    · rfl
    · simp [Option.orElse, hj, hd]
  · intro hnone hne
    have hlen : sortDevices l ≠ [] := by
      intro hnil
      have := congrArg List.length hnil
      rw [sortDevices, List.length_mergeSort] at this
      exact hne (List.length_eq_zero.mp this)
    simp only [AppState.apply]
    cases ha : s.anchorId with
    | none =>
        simp [Option.orElse, List.isEmpty_iff, hlen]
    | some a =>
        have hfind : (sortDevices l).findIdx? (fun device => device.id == a)
            = none := by
          rw [List.findIdx?_eq_none_iff]
          intro x hx
          simpa using hnone a ha x hx
        simp [Option.orElse, hfind, List.isEmpty_iff, hlen]
  · intro hl
    subst hl
    have hnil : sortDevices ([] : List DeviceInfo) = [] := by
      simp [sortDevices]
    simp only [AppState.apply, hnil]
    cases ha : s.anchorId <;> simp [Option.orElse]

/-- Witness for C2: a found anchor id at index 0 of a singleton list. -/
theorem apply_devices_selection_witness :
    ((AppState.mk [] "" (some "b") none).apply
        (ScanMessage.Devices
          [⟨"b", "B", none, false, none, none, [], [], []⟩])).table_state
      = some 0
    ∧ ((AppState.mk [] "" (some "b") none).apply
        (ScanMessage.Devices
          [⟨"b", "B", none, false, none, none, [], [], []⟩])).selected_id
      = some "b" := by
  refine (apply_devices_selection _ _).1 "b" 0
    ⟨"b", "B", none, false, none, none, [], [], []⟩ rfl ?_ rfl ?_
  · simp [sortDevices]
  · intro k dk hk _
    simp only [sortDevices, List.mergeSort_singleton] at hk
    obtain ⟨hlt, -⟩ := List.getElem?_eq_some_iff.mp hk
    simp only [List.length_cons, List.length_nil] at hlt
    omega

/-- Counterexample for C3: the initial state `AppState::new()` is
reachable, has an empty device list, and yet selects index 0 — so "if the
device list is empty then the selection is none" fails at the initial
state. -/
theorem appstate_new_violates_empty_selection :
    Reachable AppState.new ∧ AppState.new.devices = [] ∧
    AppState.new.table_state = some 0 :=
  ⟨Reachable.init, rfl, rfl⟩

/-- C3 (amended): every reachable state satisfies `Invariant`: a non-empty
device list has exactly one selected index, in range; the explicit
selected id always names a device of the current list; with an empty list
the explicit id is none and the selected index is none or the
constructor-installed index 0. -/
theorem reachable_invariant (s : AppState) (h : Reachable s) : Invariant s := by
  induction h with
  | init => exact invariant_new
  | apply s msg hr ih => exact invariant_apply s msg ih
  | next s hr ih => exact invariant_next s ih
  | prev s hr ih => exact invariant_prev s ih

/-- Witness for C3 at the initial state. -/
theorem reachable_invariant_witness : Invariant AppState.new :=
  reachable_invariant AppState.new Reachable.init

/-- Witness for C4: wrap-around on a singleton list and clearing on the
empty initial state. -/
theorem select_wraparound_witness :
    ((AppState.mk [⟨"a", "A", none, false, none, none, [], [], []⟩]
        "" (some "a") (some 0)).select_next.table_state = some 0)
    ∧ ((AppState.mk [⟨"a", "A", none, false, none, none, [], [], []⟩]
        "" (some "a") (some 0)).select_previous.table_state = some 0)
    ∧ (AppState.new.select_next.table_state = none ∧
        AppState.new.select_next.selected_id = none) := by
  refine ⟨?_, ?_, ?_⟩
  · exact (select_wraparound _).1 (by simp) rfl
  · exact (select_wraparound _).2.1 (by simp) rfl
  · have h := (select_wraparound AppState.new).2.2.1 rfl
    exact ⟨h.1, h.2.1⟩

/-- Witness for C10 on a singleton list with no selection. -/
theorem select_from_none_selection_witness :
    ((AppState.mk [⟨"a", "A", none, false, none, none, [], [], []⟩]
        "" none none).select_next.table_state = some 0)
    ∧ ((AppState.mk [⟨"a", "A", none, false, none, none, [], [], []⟩]
        "" none none).select_next.selected_id = some "a")
    ∧ ((AppState.mk [⟨"a", "A", none, false, none, none, [], [], []⟩]
        "" none none).select_previous.table_state = some 0)
    ∧ ((AppState.mk [⟨"a", "A", none, false, none, none, [], [], []⟩]
        "" none none).select_previous.selected_id = some "a") := by
  have h := select_from_none_selection
    (AppState.mk [⟨"a", "A", none, false, none, none, [], [], []⟩]
      "" none none) (by simp) rfl
  obtain ⟨⟨h1, d0, hd0, h2⟩, ⟨h3, dl, hdl, h4⟩⟩ := h
  have he0 : (⟨"a", "A", none, false, none, none, [], [], []⟩ : DeviceInfo)
      = d0 := by simpa using hd0
  have hel : (⟨"a", "A", none, false, none, none, [], [], []⟩ : DeviceInfo)
      = dl := by simpa using hdl
  rw [← he0] at h2
  rw [← hel] at h4
  exact ⟨h1, h2, h3, h4⟩

end Bleah
